import Mathlib

/-!
# Verification of the tapereader trade-ingestion pipeline

A shallow embedding, in Lean 4, of the core data structures and operations of
the `tapereader` repository (trade deduplication, batched persistence, book
snapshot gating, price-level maintenance, market statistics, absorption
detection and signal generation), together with theorems settling the
specification claims about them.

Conventions used throughout:
* Python `float` arithmetic is embedded as exact rational (`ℚ`) arithmetic.
* Python `str` values are embedded as `String`.
* `hashlib.md5` is not modelled bit-for-bit: both hash functions in the source
  first build a concatenated key string and then digest it, and every claim
  about the hashes is a claim about which trades they identify.  We therefore
  embed each hash by its key string (md5 is injective on the key strings of
  interest, by the spec's own collision-negligibility assumption), so two
  trades receive equal digests exactly when their key strings are equal.
* Stateful Python code (mutable engine fields, SQLite rows) is embedded as
  explicit state passing; SQLite tables touched by a claim are embedded as the
  Lean values of the rows the claim is about.
-/

set_option maxHeartbeats 1000000
set_option maxRecDepth 4000

namespace TapeReader

/-! ## Trade records as seen by the hashing code

`TapeReadingEngine._generate_trade_hash` and `DatabaseManager._hash_trade`
only ever consume the `str(...)` renderings of the five identity fields of a
trade dict, so a trade is embedded here as the five rendered strings
(`str(trade.get('timestamp', ''))` and friends). -/

structure HTrade where
  timestamp : String
  symbol : String
  side : String
  price : String
  volume : String
  deriving DecidableEq, Repr

/-- Embedding of `TapeReadingEngine._generate_trade_hash` (engine.py 120-131):
`'_'.join([str(timestamp), str(symbol), str(side), str(price), str(volume)])`,
the key string fed to md5.  Two trades get the same md5 digest exactly when
they get the same key string. -/
def generate_trade_hash (t : HTrade) : String :=
  t.timestamp ++ "_" ++ t.symbol ++ "_" ++ t.side ++ "_" ++ t.price ++ "_" ++ t.volume

/-- Embedding of `DatabaseManager._hash_trade` (database.py 404-407):
`f"{timestamp}_{symbol}_{price}_{volume}"` — note that, unlike the dedup
hash, the `side` field is *not* part of the key. -/
def hash_trade (t : HTrade) : String :=
  t.timestamp ++ "_" ++ t.symbol ++ "_" ++ t.price ++ "_" ++ t.volume

/-! ## The engine's duplicate-suppression state machine

`TapeReadingEngine._process_trades` (engine.py 145-191) keeps a set
`saved_trade_hashes` of previously seen trade hashes.  Each submitted trade is
hashed; a hash already in the set is classified as a duplicate and skipped,
otherwise the trade is processed (appended to the trade buffer once) and its
hash inserted.  After each batch, if the set holds more than
`max_saved_hashes = 20000` entries it is trimmed to its newest
`max_saved_hashes // 2 = 10000` entries (`set(list(s)[-(20000 // 2):])`).
Python set iteration order is not specified; following the spec's own
description of this state ("evict the oldest half, FIFO-ish by insertion") the
set is embedded as an insertion-ordered duplicate-free list, so the trim drops
the oldest entries.  The classification of every submission is recorded in a
log: `true` = processed as unique (buffered once), `false` = suppressed as
duplicate. -/

def max_saved_hashes : Nat := 20000

structure DedupState where
  seen : List String
  log : List (HTrade × Bool)
  deriving DecidableEq, Repr

/-- One loop iteration of `_process_trades`: hash the trade, suppress it if the
hash was already seen, otherwise process it and remember the hash. -/
def process_trade (st : DedupState) (t : HTrade) : DedupState :=
  let h := generate_trade_hash t
  if h ∈ st.seen then { st with log := st.log ++ [(t, false)] }
  else { seen := st.seen ++ [h], log := st.log ++ [(t, true)] }

/-- The post-batch cleanup of `_process_trades` (engine.py 184-187): when more
than `max_saved_hashes` hashes are held, keep only the newest
`max_saved_hashes / 2` of them. -/
def trim_hashes (seen : List String) : List String :=
  if seen.length > max_saved_hashes then seen.drop (seen.length - max_saved_hashes / 2) else seen

/-- Embedding of one call to `TapeReadingEngine._process_trades` on a batch. -/
def process_trades (st : DedupState) (batch : List HTrade) : DedupState :=
  let st' := batch.foldl process_trade st
  { st' with seen := trim_hashes st'.seen }

/-- A whole process lifetime: successive `_process_trades` calls starting from
the empty hash set. -/
def process_runs (batches : List (List HTrade)) : DedupState :=
  batches.foldl process_trades ⟨[], []⟩

/-- Number of submissions of trades with hash `h` classified Unique. -/
def uniqueCount (h : String) (log : List (HTrade × Bool)) : Nat :=
  (log.filter (fun e => generate_trade_hash e.1 == h && e.2)).length

/-- Number of submissions of trades with hash `h` classified Duplicate. -/
def dupCount (h : String) (log : List (HTrade × Bool)) : Nat :=
  (log.filter (fun e => generate_trade_hash e.1 == h && !e.2)).length

/-- Total number of submissions of trades with hash `h`. -/
def submitCount (h : String) (log : List (HTrade × Bool)) : Nat :=
  (log.filter (fun e => generate_trade_hash e.1 == h)).length

/-- A concrete trade record (its `volume` cell was empty, so `str` renders
`''`), used to exercise the dedup state machine across an eviction. -/
def cx_target : HTrade := ⟨"09:00:00.001", "WDOFUT", "BUY", "5000.0", ""⟩

/-- A family of trades pairwise distinct in their volume rendering (and
distinct from `cx_target`), giving pairwise distinct hashes. -/
def cx_other (i : Nat) : HTrade :=
  ⟨"09:00:00.001", "WDOFUT", "BUY", "5000.0", String.mk (List.replicate (i + 1) '1')⟩

/-- The shared key-string prefix of the `cx` trades' dedup hashes. -/
def cx_prefix : String := "09:00:00.001_WDOFUT_BUY_5000.0_"

/-- One batch holding `cx_target` followed by 20000 fresh distinct trades —
enough to push the hash set past `max_saved_hashes` and trigger eviction. -/
def cx_batch : List HTrade := cx_target :: (List.range max_saved_hashes).map cx_other

/-! ## Batched trade persistence and flush failure semantics

`DatabaseManager.save_trades` (database.py 171-208) performs one
`executemany` insert of the whole batch and commits; on any exception it rolls
the transaction back (so the database is unchanged — no partial commit) and
returns `0`.  The storage backend's success/failure on the insert is the
`fail` parameter.  `TapeReadingEngine._save_trades_batch` (engine.py 193-217)
calls it on the buffered trades and then — on every non-raising path, and
`save_trades` never raises because it catches internally — counts a validation
error if fewer rows than buffered were saved and clears the buffer.
`update_market_stats` only touches the stats table (modelled separately) and
also catches internally, so it cannot divert control flow here.  The trade
payload type is irrelevant to this control flow, hence a type parameter. -/

structure FlushState (α : Type) where
  buffer : List α
  db : List α
  trades_saved : Nat
  validation_errors : Nat
  deriving DecidableEq, Repr

/-- Embedding of `DatabaseManager.save_trades`: returns the new table contents
and the reported row count.  `fail = true` is a storage I/O error on the batch
insert: rollback, count 0. -/
def save_trades (fail : Bool) (db : List α) (trades : List α) : List α × Nat :=
  if trades.isEmpty then (db, 0)
  else if fail then (db, 0)
  else (db ++ trades, trades.length)

/-- Embedding of `TapeReadingEngine._save_trades_batch`. -/
def save_trades_batch (fail : Bool) (st : FlushState α) : FlushState α :=
  if st.buffer.isEmpty then st
  else
    let r := save_trades fail st.db st.buffer
    { buffer := [],
      db := r.1,
      trades_saved := st.trades_saved + r.2,
      validation_errors := st.validation_errors + if r.2 ≠ st.buffer.length then 1 else 0 }

/-! ## Book snapshot gating

`TapeReadingEngine._book_changed_significantly` (engine.py 237-267) compares
the top of the incoming book against the last remembered snapshot; a missing
prior snapshot, an empty side, a top price change, a top-volume change of more
than 50% relative to the prior volume, or any exception inside the comparison
(notably division by a zero prior volume) all count as significant.
`TapeReadingEngine._process_book` (engine.py 219-235) then saves one snapshot
*per symbol in `['WDOFUT', 'DOLFUT']`* whenever the book changed significantly
and both sides are non-empty, and remembers the book.  Integer volumes are
embedded in `ℚ` so that the 50% ratio is exact. -/

structure BookLevel where
  price : ℚ
  volume : ℚ
  deriving DecidableEq, Repr

structure Book where
  bids : List BookLevel
  asks : List BookLevel
  deriving DecidableEq, Repr

structure BookState where
  last : Option Book
  saved : Nat
  deriving DecidableEq, Repr

def book_changed_significantly (last : Option Book) (curr : Book) : Bool :=
  match last with
  | none => true
  | some lb =>
    match lb.bids, lb.asks, curr.bids, curr.asks with
    | lb0 :: _, la0 :: _, cb0 :: _, ca0 :: _ =>
      if lb0.price ≠ cb0.price ∨ la0.price ≠ ca0.price then true
      else if lb0.volume = 0 ∨ la0.volume = 0 then true
      else if |lb0.volume - cb0.volume| / lb0.volume > 1/2 ∨
              |la0.volume - ca0.volume| / la0.volume > 1/2 then true
      else false
    | _, _, _, _ => true

def book_symbols : List String := ["WDOFUT", "DOLFUT"]

/-- Embedding of `TapeReadingEngine._process_book` (success path of the
database insert): count of persisted snapshots plus the remembered book. -/
def process_book (st : BookState) (book : Book) : BookState :=
  if book_changed_significantly st.last book then
    let savedNow := (book_symbols.map fun _ =>
      if book.bids.isEmpty || book.asks.isEmpty then 0 else 1).sum
    { last := some book, saved := st.saved + savedNow }
  else st

/-! ## Price-level maintenance

`DatabaseManager.update_price_levels` (database.py 261-301), restricted to one
`(symbol, price, level_type)` row (the table is UNIQUE on that key): if the
row exists, `touch_count` is incremented, `volume_traded` accumulated,
`strength` set to `MIN(touch_count + 1, 10)` — SQLite evaluates the right-hand
sides against the *old* row, so this is `min(old touch_count + 1, 10)` — and
if not, a fresh row is inserted with the table defaults `touch_count = 1`,
`strength = 1` and `volume_traded` equal to the trade volume. -/

structure PriceLevelRow where
  touch_count : Nat
  strength : Nat
  volume_traded : Nat
  deriving DecidableEq, Repr

def update_price_level : Option PriceLevelRow → Nat → PriceLevelRow
  | none, vol => { touch_count := 1, strength := 1, volume_traded := vol }
  | some r, vol =>
    { touch_count := r.touch_count + 1,
      strength := min (r.touch_count + 1) 10,
      volume_traded := r.volume_traded + vol }

/-- The row of one `(symbol, price, level_type)` key after a sequence of
touches with the given volumes (`none` = row not yet inserted). -/
def run_price_level (vols : List Nat) : Option PriceLevelRow :=
  vols.foldl (fun st v => some (update_price_level st v)) none

/-! ## Hourly market statistics

`DatabaseManager.update_market_stats` (database.py 451-506) groups the flushed
batch by `(symbol, date.today(), hour)` where the hour is
`int(ts.split(':')[0])` when the timestamp contains a colon and `0` otherwise,
and writes per bucket `vwap = sum(prices) / len(prices)` — the *unweighted*
mean of the trade prices of the bucket.  The grouping is embedded by filtering
the batch down to one bucket's trades (the date is `date.today()` for every
trade of the batch, so a bucket is determined by symbol and hour). -/

structure MTrade where
  timestamp : String
  symbol : String
  side : String
  price : ℚ
  volume : Nat
  deriving DecidableEq, Repr

/-- Python `str.split(sep)` for a one-character separator, expressed over the
character list of the string (structurally, so that concrete runs compute). -/
def splitOnChar (sep : Char) : List Char → List (List Char)
  | [] => [[]]
  | c :: cs =>
    if c = sep then [] :: splitOnChar sep cs
    else
      match splitOnChar sep cs with
      | [] => [[c]]
      | h :: t => (c :: h) :: t

/-- Python `int(s)` on a string of decimal digits (`none` = `ValueError`). -/
def charsToNat : List Char → Option Nat
  | [] => none
  | l =>
    if l.all Char.isDigit
    then some (l.foldl (fun n c => n * 10 + (c.toNat - '0'.toNat)) 0)
    else none

/-- Python `str.strip()`. -/
def trimChars (l : List Char) : List Char :=
  ((l.dropWhile Char.isWhitespace).reverse.dropWhile Char.isWhitespace).reverse

/-- `int(ts.split(':')[0]) if ':' in ts else 0`; `none` = `int()` raised. -/
def trade_hour (ts : String) : Option Nat :=
  if ts.data.contains ':' then charsToNat ((splitOnChar ':' ts.data).headD []) else some 0

def bucket_trades (trades : List MTrade) (sym : String) (h : Nat) : List MTrade :=
  trades.filter fun t => t.symbol == sym && trade_hour t.timestamp == some h

/-- The `vwap` value `update_market_stats` writes for bucket `(sym, h)`:
`sum(prices) / len(prices) if prices else 0`. -/
def stats_vwap (trades : List MTrade) (sym : String) (h : Nat) : ℚ :=
  let ps := (bucket_trades trades sym h).map (·.price)
  if ps.isEmpty then 0 else ps.sum / (ps.length : ℚ)

/-- The volume-weighted mean of the bucket's trade prices — the spec's VWAP
(`sum of price × volume divided by total volume`).  This definition follows
the spec's words, for comparison with `stats_vwap` taken from the source. -/
def spec_vwap (trades : List MTrade) (sym : String) (h : Nat) : ℚ :=
  let b := bucket_trades trades sym h
  ((b.map fun t => t.price * (t.volume : ℚ)).sum) / ((b.map fun t => (t.volume : ℚ)).sum)

/-! ## Timestamp parsing and chronological ordering of new trades

`ExcelDataProvider._parse_time_for_sorting` (excel_provider.py 81-109) turns a
timestamp string into a `datetime` used as the sort key, and
`ExcelDataProvider.get_data` (excel_provider.py 221-231) hands the batch of
newly observed trades downstream as `sorted(new_trades, key=...)`.

`datetime` values are embedded as naturals on a microsecond scale:
`dayCode * US_PER_DAY + time-of-day in microseconds`, where for full
`%Y-%m-%d` timestamps the day code is `y * 416 + m * 32 + d` — an
order-faithful injective encoding of calendar dates (for the parser-validated
ranges `1 ≤ m ≤ 12`, `1 ≤ d ≤ 31` it is strictly monotone in the
lexicographic date order, which is all that sorting observes).  The parser's
two `datetime.now()` uses are the parameters `today` (`.date()`, a day code)
and `now` (the exception fallback value, a full code). -/

def US_PER_DAY : Nat := 86400000000

/-- A numeric `strptime` field of `minLen` to `maxLen` digits. -/
def parse_field (l : List Char) (minLen maxLen : Nat) : Option Nat :=
  if minLen ≤ l.length ∧ l.length ≤ maxLen then charsToNat l else none

/-- `datetime.strptime(s, "%H:%M:%S").time()` as seconds of the day
(`strptime` accepts 1-2 digit fields and checks their ranges; it raises —
here `none` — otherwise). -/
def parse_hms (l : List Char) : Option Nat :=
  match splitOnChar ':' l with
  | [hs, ms, ss] => do
    let hv ← parse_field hs 1 2
    let mv ← parse_field ms 1 2
    let sv ← parse_field ss 1 2
    if hv ≤ 23 ∧ mv ≤ 59 ∧ sv ≤ 61 then some (hv * 3600 + mv * 60 + sv) else none
  | _ => none

/-- `int(frac.ljust(3, '0')[:3])`: the millisecond part of a short
timestamp. -/
def parse_ms (frac : List Char) : Option Nat :=
  charsToNat ((frac ++ List.replicate (3 - frac.length) '0').take 3)

/-- The `len(timestamp_str) <= 12` branch of `_parse_time_for_sorting`:
a time-of-day `HH:MM:SS[.mmm]` combined with today's date. -/
def parse_short (today : Nat) (l : List Char) : Option Nat :=
  if l.contains '.' then
    match splitOnChar '.' l with
    | t0 :: t1 :: _ => do
      let secs ← parse_hms t0
      let ms ← parse_ms t1
      some (today * US_PER_DAY + secs * 1000000 + ms * 1000)
    | _ => none
  else do
    let secs ← parse_hms l
    some (today * US_PER_DAY + secs * 1000000)

/-- `datetime.strptime(s[:23], "%Y-%m-%d %H:%M:%S.%f")`: the full-timestamp
branch (`%Y` is exactly 4 digits, `%m`/`%d` are range-checked, `%f` is 1-6
digits scaled to microseconds). -/
def parse_full (l : List Char) : Option Nat :=
  match splitOnChar ' ' l with
  | [ds, ts] =>
    match splitOnChar '-' ds, splitOnChar ':' ts with
    | [ys, mos, dys], [hs, mins, secs] => do
      let y ← parse_field ys 4 4
      let mo ← parse_field mos 1 2
      let dy ← parse_field dys 1 2
      if 1 ≤ mo ∧ mo ≤ 12 ∧ 1 ≤ dy ∧ dy ≤ 31 then
        match splitOnChar '.' secs with
        | [ss, fs] => do
          let hv ← parse_field hs 1 2
          let mv ← parse_field mins 1 2
          let sv ← parse_field ss 1 2
          let f ← parse_field fs 1 6
          if hv ≤ 23 ∧ mv ≤ 59 ∧ sv ≤ 61 then
            some ((y * 416 + mo * 32 + dy) * US_PER_DAY +
              (hv * 3600 + mv * 60 + sv) * 1000000 + f * 10 ^ (6 - fs.length))
          else none
        | _ => none
      else none
    | _, _ => none
  | _ => none

/-- Embedding of `ExcelDataProvider._parse_time_for_sorting`: strip, parse the
short or the long form depending on the stripped length, and on any parse
failure fall back to `datetime.now()` (the `now` parameter). -/
def parse_time_for_sorting (today now : Nat) (s0 : String) : Nat :=
  let l := trimChars s0.data
  (if l.length ≤ 12 then parse_short today l else parse_full (l.take 23)).getD now

/-- A raw trade record as built by `ExcelDataProvider._read_trades`
(excel_provider.py 309-322); its `timestamp` field is the time-of-day
*string*. -/
structure STrade where
  timestamp : String
  symbol : String
  side : String
  price : ℚ
  volume : Nat
  row : Nat
  deriving DecidableEq, Repr

def sort_key (today now : Nat) (t : STrade) : Nat :=
  parse_time_for_sorting today now t.timestamp

/-- Embedding of `sorted(new_trades, key=lambda t:
self._parse_time_for_sorting(t['timestamp']))` (excel_provider.py 223-224).
Python's `sorted` is the stable sort by the key; `List.insertionSort` with the
reflexive total relation `key a ≤ key b` is also stable, and a stable sort is
uniquely determined, so the two agree exactly. -/
def sort_new_trades (today now : Nat) (trades : List STrade) : List STrade :=
  List.insertionSort (fun a b => sort_key today now a ≤ sort_key today now b) trades

/-! ## Absorption detection

`AbsorptionDetector.detect` (absorption.py 20-68).  A trade dict's
`timestamp` field may hold a `datetime` object, a string (what
`ExcelDataProvider._read_trades` produces) or be absent; only `datetime`
timestamps pass the `isinstance(t.get('timestamp'), datetime)` filter.
`datetime` values are microseconds on a fixed epoch scale; `(now - ts).seconds`
is the `seconds` attribute of the Python `timedelta`, i.e. the whole seconds
of the remainder after normalising the difference to whole days (floor
division, as Python does). -/

inductive TsField where
  | dt (usec : Int)
  | str (s : String)
  | missing
  deriving DecidableEq, Repr

def TsField.isDatetime : TsField → Bool
  | dt _ => true
  | _ => false

structure ATrade where
  timestamp : TsField
  price : ℚ
  volume : Nat
  deriving DecidableEq, Repr

structure AbsorptionConfig where
  volume_threshold : Nat
  price_impact_max : ℚ
  time_window : Int
  deriving DecidableEq, Repr

/-- `(delta).seconds` for a Python `timedelta` of `delta` microseconds. -/
def td_seconds (delta : Int) : Int :=
  (Int.fmod delta 86400000000).fdiv 1000000

/-- The `recent_trades` membership test of `detect` (absorption.py 27-31). -/
def in_window (cfg : AbsorptionConfig) (now : Int) (t : ATrade) : Bool :=
  match t.timestamp with
  | .dt ts => td_seconds (now - ts) < cfg.time_window
  | _ => false

/-- Python `max` over a non-empty list (`0` stands for the unreached empty
case). -/
def list_max : List ℚ → ℚ
  | [] => 0
  | x :: xs => xs.foldl max x

/-- Python `min` over a non-empty list. -/
def list_min : List ℚ → ℚ
  | [] => 0
  | x :: xs => xs.foldl min x

/-- The ABSORPTION-typed `Behavior` built by `detect`, with the metadata the
claims talk about. -/
structure AbsorptionBehavior where
  confidence : ℚ
  volume : Nat
  price_impact : ℚ
  trade_count : Nat
  deriving DecidableEq, Repr

/-- Embedding of `AbsorptionDetector.detect`. -/
def absorption_detect (cfg : AbsorptionConfig) (now : Int) (trades : List ATrade) :
    Option AbsorptionBehavior :=
  if trades.length < 10 then none else
  let recent := trades.filter (in_window cfg now)
  if recent.isEmpty then none else
  let total_volume := (recent.map (·.volume)).sum
  if total_volume < cfg.volume_threshold then none else
  let prices := (recent.filter fun t => t.price ≠ 0).map (·.price)
  if prices.isEmpty then none else
  let price_range := list_max prices - list_min prices
  let avg_price := prices.sum / (prices.length : ℚ)
  let price_impact := if 0 < avg_price then price_range / avg_price else 0
  if price_impact < cfg.price_impact_max then
    some { confidence := min 1 ((total_volume : ℚ) / ((cfg.volume_threshold : ℚ) * 2)),
           volume := total_volume,
           price_impact := price_impact,
           trade_count := recent.length }
  else none

/-! ## Signal generation

`TapeReadingSystem.generate_signals` (tape_reading_live.py 127-190): for each
detected behavior one of four signal templates may apply; every emitted signal
then gets `risk_reward = abs(target - entry) / abs(stop - entry)` with no
guard on the denominator, so a zero-distance stop raises an uncaught
`ZeroDivisionError` — modelled as `Except.error ()`. -/

inductive BehType where
  | absorption
  | exhaustion
  deriving DecidableEq, Repr

structure SBehavior where
  btype : BehType
  confidence : ℚ
  symbol : String
  direction : String
  deriving DecidableEq, Repr

structure PriceStats where
  current_price : ℚ
  low : ℚ
  high : ℚ
  range : ℚ
  average : ℚ
  deriving DecidableEq, Repr

structure SAnalysis where
  flow_bias : String
  price : PriceStats
  behaviors : List SBehavior
  deriving DecidableEq, Repr

structure PreSignal where
  stype : String
  reason : String
  entry : ℚ
  stop : ℚ
  target : ℚ
  deriving DecidableEq, Repr

structure TradingSignal where
  stype : String
  reason : String
  confidence : ℚ
  symbol : String
  entry : ℚ
  stop : ℚ
  target : ℚ
  risk_reward : ℚ
  deriving DecidableEq, Repr

/-- The four signal templates of `generate_signals` (entry/stop/target as
assigned in tape_reading_live.py 138-182); `none` = no signal for this
behavior. -/
def raw_signal (a : SAnalysis) (b : SBehavior) : Option PreSignal :=
  match b.btype with
  | .absorption =>
    if a.flow_bias = "BULLISH" ∧ b.confidence > 7/10 then
      some ⟨"BUY", "Absorção de venda detectada", a.price.current_price, a.price.low,
            a.price.current_price + a.price.range * 2⟩
    else if a.flow_bias = "BEARISH" ∧ b.confidence > 7/10 then
      some ⟨"SELL", "Absorção de compra detectada", a.price.current_price, a.price.high,
            a.price.current_price - a.price.range * 2⟩
    else none
  | .exhaustion =>
    if b.direction = "BULLISH" ∧ b.confidence > 3/4 then
      some ⟨"SELL", "Exaustão de alta detectada", a.price.current_price, a.price.high + 2,
            a.price.average⟩
    else if b.direction = "BEARISH" ∧ b.confidence > 3/4 then
      some ⟨"BUY", "Exaustão de baixa detectada", a.price.current_price, a.price.low - 2,
            a.price.average⟩
    else none

/-- The `if signal:` block (tape_reading_live.py 184-188): attach
`risk_reward`, raising `ZeroDivisionError` on a zero-distance stop. -/
def emit_signal (a : SAnalysis) (b : SBehavior) (acc : List TradingSignal) :
    Except Unit (List TradingSignal) :=
  match raw_signal a b with
  | none => .ok acc
  | some p =>
    if |p.stop - p.entry| = 0 then .error ()
    else .ok (acc ++ [{ stype := p.stype, reason := p.reason, confidence := b.confidence,
                        symbol := b.symbol, entry := p.entry, stop := p.stop, target := p.target,
                        risk_reward := |p.target - p.entry| / |p.stop - p.entry| }])

/-- The `for behavior in analysis.get('behaviors', [])` loop of
`generate_signals`; an uncaught `ZeroDivisionError` aborts the loop and
propagates. -/
def signals_go (a : SAnalysis) : List SBehavior → List TradingSignal →
    Except Unit (List TradingSignal)
  | [], acc => .ok acc
  | b :: bs, acc =>
    match emit_signal a b acc with
    | .error e => .error e
    | .ok acc2 => signals_go a bs acc2

/-- Embedding of `TapeReadingSystem.generate_signals`. -/
def generate_signals (a : SAnalysis) : Except Unit (List TradingSignal) :=
  signals_go a a.behaviors []

/-! # Theorems -/

/-! ## C7: the validation hash versus the dedup hash -/

/-- C7 (counterexample): the claim "the validation hash classifies two trades
as identical exactly when the dedup identity hash does" is false: two trades
agreeing on timestamp, symbol, price and volume but with opposite sides get
the same validation hash yet different dedup hashes. -/
theorem c7_counterexample :
    hash_trade ⟨"09:23:58.004", "WDOFUT", "BUY", "5000.0", "10"⟩ =
      hash_trade ⟨"09:23:58.004", "WDOFUT", "SELL", "5000.0", "10"⟩ ∧
    generate_trade_hash ⟨"09:23:58.004", "WDOFUT", "BUY", "5000.0", "10"⟩ ≠
      generate_trade_hash ⟨"09:23:58.004", "WDOFUT", "SELL", "5000.0", "10"⟩ := by
  exact ⟨rfl, by decide⟩

/-- C7 (amended): the reconciliation hash `DatabaseManager._hash_trade` is
*not* the dedup hash: it keys on `(timestamp, symbol, price, volume)` only.
Two trades agreeing on those four fields always receive the same validation
hash, and whenever their side renderings differ the dedup hash
`_generate_trade_hash` still separates them. -/
theorem c7_validation_hash_ignores_side (t u : HTrade) (hts : t.timestamp = u.timestamp)
    (hsym : t.symbol = u.symbol) (hpr : t.price = u.price) (hvol : t.volume = u.volume) :
    hash_trade t = hash_trade u ∧
      (t.side ≠ u.side → generate_trade_hash t ≠ generate_trade_hash u) := by
  constructor
  · simp [hash_trade, hts, hsym, hpr, hvol]
  · intro hside heq
    apply hside
    have h := congrArg String.data heq
    simp only [generate_trade_hash, String.data_append, hts, hsym, hpr, hvol,
      List.append_assoc] at h
    have h1 := List.append_cancel_left h
    have h2 := List.append_cancel_left h1
    have h3 := List.append_cancel_left h2
    have h4 := List.append_cancel_left h3
    have h4' : t.side.data ++ ("_".data ++ (u.price.data ++ ("_".data ++ u.volume.data))) =
        u.side.data ++ ("_".data ++ (u.price.data ++ ("_".data ++ u.volume.data))) := by
      simpa [List.append_assoc] using h4
    have h5 : t.side.data = u.side.data := List.append_cancel_right h4'
    calc t.side = ⟨t.side.data⟩ := rfl
      _ = ⟨u.side.data⟩ := congrArg String.mk h5
      _ = u.side := rfl

/-- C7 (witness): the amended statement at a concrete pair of trades agreeing
on the four hashed fields but with opposite sides. -/
theorem c7_witness :
    hash_trade ⟨"10:01:02.300", "DOLFUT", "BUY", "5432.5", "7"⟩ =
      hash_trade ⟨"10:01:02.300", "DOLFUT", "SELL", "5432.5", "7"⟩ ∧
    ((⟨"10:01:02.300", "DOLFUT", "BUY", "5432.5", "7"⟩ : HTrade).side ≠
        (⟨"10:01:02.300", "DOLFUT", "SELL", "5432.5", "7"⟩ : HTrade).side →
      generate_trade_hash ⟨"10:01:02.300", "DOLFUT", "BUY", "5432.5", "7"⟩ ≠
        generate_trade_hash ⟨"10:01:02.300", "DOLFUT", "SELL", "5432.5", "7"⟩) :=
  c7_validation_hash_ignores_side _ _ rfl rfl rfl rfl

/-! ## C5: the persisted `vwap` is the unweighted mean -/

/-- C5: on the batch `[price 10 × volume 1, price 20 × volume 3]` (same
symbol, same hour bucket) `update_market_stats` writes
`vwap = (10 + 20) / 2 = 15`, whereas the volume-weighted mean of the batch is
`(10·1 + 20·3) / 4 = 35/2 = 17.5`: the code stores the unweighted mean of
prices, not the VWAP the claim (and the column name) promise. -/
theorem c5_vwap_is_unweighted_mean :
    stats_vwap [⟨"09:00:00.004", "WDOFUT", "BUY", 10, 1⟩,
                ⟨"09:10:01.100", "WDOFUT", "SELL", 20, 3⟩] "WDOFUT" 9 = 15 ∧
    spec_vwap [⟨"09:00:00.004", "WDOFUT", "BUY", 10, 1⟩,
               ⟨"09:10:01.100", "WDOFUT", "SELL", 20, 3⟩] "WDOFUT" 9 = 35 / 2 ∧
    stats_vwap [⟨"09:00:00.004", "WDOFUT", "BUY", 10, 1⟩,
                ⟨"09:10:01.100", "WDOFUT", "SELL", 20, 3⟩] "WDOFUT" 9 ≠
      spec_vwap [⟨"09:00:00.004", "WDOFUT", "BUY", 10, 1⟩,
                 ⟨"09:10:01.100", "WDOFUT", "SELL", 20, 3⟩] "WDOFUT" 9 := by
  have hb : bucket_trades [⟨"09:00:00.004", "WDOFUT", "BUY", 10, 1⟩,
      ⟨"09:10:01.100", "WDOFUT", "SELL", 20, 3⟩] "WDOFUT" 9 =
      [⟨"09:00:00.004", "WDOFUT", "BUY", 10, 1⟩,
       ⟨"09:10:01.100", "WDOFUT", "SELL", 20, 3⟩] := rfl
  have h1 : stats_vwap [⟨"09:00:00.004", "WDOFUT", "BUY", 10, 1⟩,
      ⟨"09:10:01.100", "WDOFUT", "SELL", 20, 3⟩] "WDOFUT" 9 = 15 := by
    simp only [stats_vwap, hb]
    norm_num
  have h2 : spec_vwap [⟨"09:00:00.004", "WDOFUT", "BUY", 10, 1⟩,
      ⟨"09:10:01.100", "WDOFUT", "SELL", 20, 3⟩] "WDOFUT" 9 = 35 / 2 := by
    simp only [spec_vwap, hb]
    norm_num
  refine ⟨h1, h2, ?_⟩
  rw [h1, h2]
  norm_num

/-! ## C1: a failed flush discards the buffer -/

/-- C1: a batch flush against failing storage is atomic — the trades table is
left unchanged, `save_trades` reports 0 rows — but `_save_trades_batch` then
clears the in-memory buffer anyway (it only counts a validation error), so
the buffered trade is discarded, not retained for retry as the claim states.
-/
theorem c1_failed_flush_discards_buffer :
    save_trades_batch true
        (⟨[⟨"09:00:00.000", "WDOFUT", "BUY", 5000, 5⟩], [], 0, 0⟩ : FlushState MTrade) =
      ⟨[], [], 0, 1⟩ ∧
    (save_trades true ([] : List MTrade) [⟨"09:00:00.000", "WDOFUT", "BUY", 5000, 5⟩]).1 = [] :=
  ⟨rfl, rfl⟩

/-! ## C6: price-level strength -/

/-- The run of one price-level row: after `n ≥ 1` touches the row holds
`touch_count = n`, `strength = min n 10` and the accumulated volume. -/
theorem run_price_level_eq (vols : List Nat) (hne : vols ≠ []) :
    run_price_level vols = some ⟨vols.length, min vols.length 10, vols.sum⟩ := by
  have aux : ∀ (vs : List Nat) (r : PriceLevelRow), r.strength = min r.touch_count 10 →
      vs.foldl (fun st v => some (update_price_level st v)) (some r) =
        some ⟨r.touch_count + vs.length, min (r.touch_count + vs.length) 10,
              r.volume_traded + vs.sum⟩ := by
    intro vs
    induction vs with
    | nil =>
      intro r hr
      cases r with
      | mk tc s vt => simp_all
    | cons v vs ih =>
      intro r hr
      rw [List.foldl_cons,
        show update_price_level (some r) v =
          ⟨r.touch_count + 1, min (r.touch_count + 1) 10, r.volume_traded + v⟩ from rfl,
        ih _ rfl]
      simp only [List.length_cons, List.sum_cons, Option.some.injEq, PriceLevelRow.mk.injEq]
      refine ⟨by omega, by omega, by omega⟩
  match vols, hne with
  | v :: vs, _ =>
    unfold run_price_level
    rw [List.foldl_cons, show update_price_level none v = ⟨1, 1, v⟩ from rfl,
      aux vs ⟨1, 1, v⟩ (by simp)]
    show some (⟨1 + vs.length, min (1 + vs.length) 10, v + vs.sum⟩ : PriceLevelRow) =
      some ⟨vs.length + 1, min (vs.length + 1) 10, v + vs.sum⟩
    rw [Nat.add_comm 1 vs.length]

/-- C6: for a fixed `(symbol, price, level_type)` row, after every update the
stored strength equals `min(touch_count, 10)`, never exceeds 10, and never
decreases from one update to the next. -/
theorem c6_strength_monotone_capped (vols : List Nat) (v : Nat) :
    (∀ r, run_price_level (vols ++ [v]) = some r →
      r.strength = min r.touch_count 10 ∧ r.strength ≤ 10 ∧
        r.touch_count = vols.length + 1) ∧
    (∀ r r', run_price_level vols = some r → run_price_level (vols ++ [v]) = some r' →
      r.strength ≤ r'.strength) := by
  constructor
  · intro r hr
    rw [run_price_level_eq (vols ++ [v]) (by simp)] at hr
    obtain rfl := (Option.some.inj hr).symm
    refine ⟨rfl, ?_, ?_⟩
    · show min ((vols ++ [v]).length) 10 ≤ 10
      omega
    · show (vols ++ [v]).length = vols.length + 1
      simp
  · intro r r' hr hr'
    have hne : vols ≠ [] := by
      intro h
      rw [h] at hr
      simp [run_price_level] at hr
    rw [run_price_level_eq vols hne] at hr
    rw [run_price_level_eq (vols ++ [v]) (by simp)] at hr'
    obtain rfl := (Option.some.inj hr).symm
    obtain rfl := (Option.some.inj hr').symm
    show min vols.length 10 ≤ min ((vols ++ [v]).length) 10
    simp only [List.length_append, List.length_cons, List.length_nil]
    omega

/-! ## C4: book snapshot gating -/

/-- C4 (counterexample): the claim "a read whose top bid or ask price differs
causes exactly one additional snapshot to be persisted" is false: a top-bid
price change (100 → 99) makes `_process_book` save one snapshot for *each* of
`WDOFUT` and `DOLFUT` — two snapshots, not one. -/
theorem c4_counterexample :
    (process_book ⟨some ⟨[⟨100, 10⟩], [⟨101, 10⟩]⟩, 0⟩ ⟨[⟨99, 10⟩], [⟨101, 10⟩]⟩).saved = 2 ∧
    (process_book ⟨some ⟨[⟨100, 10⟩], [⟨101, 10⟩]⟩, 0⟩ ⟨[⟨99, 10⟩], [⟨101, 10⟩]⟩).saved ≠ 1 := by
  constructor <;> decide

/-- C4 (amended): with a prior snapshot whose top has positive volumes, a read
with the same top bid/ask prices and top volume deltas of at most 50% relative
to the prior values persists no snapshot (and leaves the engine state
unchanged), while a read whose top bid or ask price differs persists exactly
one snapshot per symbol in `['WDOFUT', 'DOLFUT']` — exactly two snapshots. -/
theorem c4_book_snapshot_gating (st : BookState)
    (lb la cb ca : BookLevel) (lbt lat cbt cat : List BookLevel)
    (hst : st.last = some ⟨lb :: lbt, la :: lat⟩) :
    (lb.price = cb.price → la.price = ca.price → 0 < lb.volume → 0 < la.volume →
      |lb.volume - cb.volume| / lb.volume ≤ 1/2 → |la.volume - ca.volume| / la.volume ≤ 1/2 →
      process_book st ⟨cb :: cbt, ca :: cat⟩ = st) ∧
    ((lb.price ≠ cb.price ∨ la.price ≠ ca.price) →
      (process_book st ⟨cb :: cbt, ca :: cat⟩).saved = st.saved + 2) := by
  constructor
  · intro h1 h2 h3 h4 h5 h6
    have hch : book_changed_significantly (some ⟨lb :: lbt, la :: lat⟩)
        ⟨cb :: cbt, ca :: cat⟩ = false := by
      show (if lb.price ≠ cb.price ∨ la.price ≠ ca.price then true
        else if lb.volume = 0 ∨ la.volume = 0 then true
        else if |lb.volume - cb.volume| / lb.volume > 1/2 ∨
                |la.volume - ca.volume| / la.volume > 1/2 then true
        else false) = false
      rw [if_neg (not_or.mpr ⟨not_not_intro h1, not_not_intro h2⟩)]
      rw [if_neg (not_or.mpr ⟨h3.ne', h4.ne'⟩)]
      rw [if_neg (not_or.mpr ⟨not_lt.mpr h5, not_lt.mpr h6⟩)]
    unfold process_book
    rw [hst, hch]
    simp
  · intro hp
    have hch : book_changed_significantly (some ⟨lb :: lbt, la :: lat⟩)
        ⟨cb :: cbt, ca :: cat⟩ = true := by
      show (if lb.price ≠ cb.price ∨ la.price ≠ ca.price then true
        else if lb.volume = 0 ∨ la.volume = 0 then true
        else if |lb.volume - cb.volume| / lb.volume > 1/2 ∨
                |la.volume - ca.volume| / la.volume > 1/2 then true
        else false) = true
      rw [if_pos hp]
    unfold process_book
    rw [hst, hch]
    simp [book_symbols]

/-- C4 (witness): the amended statement at concrete books — an unchanged top
(volume delta 20%) persists nothing; a top-bid price change persists two
snapshots. -/
theorem c4_witness :
    process_book ⟨some ⟨[⟨100, 10⟩], [⟨101, 20⟩]⟩, 5⟩ ⟨[⟨100, 12⟩], [⟨101, 20⟩]⟩ =
      ⟨some ⟨[⟨100, 10⟩], [⟨101, 20⟩]⟩, 5⟩ ∧
    (process_book ⟨some ⟨[⟨100, 10⟩], [⟨101, 20⟩]⟩, 5⟩ ⟨[⟨98, 10⟩], [⟨101, 20⟩]⟩).saved =
      5 + 2 := by
  constructor
  · exact (c4_book_snapshot_gating ⟨some ⟨[⟨100, 10⟩], [⟨101, 20⟩]⟩, 5⟩
      ⟨100, 10⟩ ⟨101, 20⟩ ⟨100, 12⟩ ⟨101, 20⟩ [] [] [] []
      rfl).1 rfl rfl (by norm_num) (by norm_num) (by norm_num) (by norm_num)
  · exact (c4_book_snapshot_gating ⟨some ⟨[⟨100, 10⟩], [⟨101, 20⟩]⟩, 5⟩
      ⟨100, 10⟩ ⟨101, 20⟩ ⟨98, 10⟩ ⟨101, 20⟩ [] [] [] []
      rfl).2 (Or.inl (by norm_num))

/-! ## C8: signal risk–reward and the missing zero-stop guard -/

/-- Any signal template produced by `generate_signals` has the current price
as entry and one of the four stop levels. -/
theorem raw_signal_stop_entry (a : SAnalysis) (b : SBehavior) (p : PreSignal)
    (h : raw_signal a b = some p) :
    p.entry = a.price.current_price ∧
      (p.stop = a.price.low ∨ p.stop = a.price.high ∨ p.stop = a.price.high + 2 ∨
        p.stop = a.price.low - 2) := by
  obtain ⟨bt, conf, sym, dir⟩ := b
  cases bt <;> simp only [raw_signal] at h <;> split_ifs at h
  all_goals
    obtain rfl := (Option.some.inj h).symm
    exact ⟨rfl, by simp⟩

/-- C8 (counterexample): the claim "a zero-distance stop is treated as an
error condition returning a defined sentinel rather than performing the
division and raising" is false: with an absorption behavior, bullish flow,
confidence 0.8 and the current price sitting exactly at the session low (so
stop = entry = 100), `generate_signals` performs the division and raises
`ZeroDivisionError` (the embedded computation aborts with an error, it
returns no sentinel value). -/
theorem c8_counterexample :
    generate_signals ⟨"BULLISH", ⟨100, 100, 101, 1, 100⟩,
        [⟨.absorption, 4/5, "WDOFUT", "NEUTRAL"⟩]⟩ = .error () := by
  norm_num [generate_signals, signals_go, emit_signal, raw_signal]

/-- C8 (amended): whenever none of the four possible stop levels coincides
with the current price, `generate_signals` succeeds and every emitted signal
carries `risk_reward = |target − entry| / |stop − entry|`; the zero-distance
stop case is *not* guarded with a sentinel — it raises (see the
counterexample). -/
theorem c8_risk_reward (a : SAnalysis)
    (h1 : a.price.low ≠ a.price.current_price)
    (h2 : a.price.high ≠ a.price.current_price)
    (h3 : a.price.high + 2 ≠ a.price.current_price)
    (h4 : a.price.low - 2 ≠ a.price.current_price) :
    ∃ sigs, generate_signals a = Except.ok sigs ∧
      ∀ s ∈ sigs, s.risk_reward = |s.target - s.entry| / |s.stop - s.entry| := by
  suffices aux : ∀ (bs : List SBehavior) (acc : List TradingSignal),
      (∀ s ∈ acc, s.risk_reward = |s.target - s.entry| / |s.stop - s.entry|) →
      ∃ sigs, signals_go a bs acc = .ok sigs ∧
        ∀ s ∈ sigs, s.risk_reward = |s.target - s.entry| / |s.stop - s.entry| by
    exact aux a.behaviors [] (by simp)
  intro bs
  induction bs with
  | nil =>
    intro acc hacc
    exact ⟨acc, rfl, hacc⟩
  | cons b bs ih =>
    intro acc hacc
    cases hr : raw_signal a b with
    | none =>
      have he : emit_signal a b acc = .ok acc := by
        simp [emit_signal, hr]
      rw [signals_go, he]
      exact ih acc hacc
    | some p =>
      obtain ⟨hentry, hstop⟩ := raw_signal_stop_entry a b p hr
      have hne : p.stop - p.entry ≠ 0 := by
        rw [hentry]
        rcases hstop with h | h | h | h <;> rw [h] <;> exact sub_ne_zero.mpr (by assumption)
      have he : emit_signal a b acc = .ok (acc ++
          [{ stype := p.stype, reason := p.reason, confidence := b.confidence,
             symbol := b.symbol, entry := p.entry, stop := p.stop, target := p.target,
             risk_reward := |p.target - p.entry| / |p.stop - p.entry| }]) := by
        simp only [emit_signal, hr]
        rw [if_neg (by simpa using hne)]
      rw [signals_go, he]
      refine ih _ ?_
      intro s hs
      rcases List.mem_append.mp hs with hs | hs
      · exact hacc s hs
      · obtain rfl := List.mem_singleton.mp hs
        rfl

/-- C8 (witness): the amended statement at a concrete analysis emitting a BUY
absorption signal with entry 100, stop 99, target 102. -/
theorem c8_witness :
    ∃ sigs, generate_signals ⟨"BULLISH", ⟨100, 99, 102, 1, 100⟩,
        [⟨.absorption, 4/5, "WDOFUT", "NEUTRAL"⟩]⟩ = Except.ok sigs ∧
      ∀ s ∈ sigs, s.risk_reward = |s.target - s.entry| / |s.stop - s.entry| :=
  c8_risk_reward ⟨"BULLISH", ⟨100, 99, 102, 1, 100⟩,
      [⟨.absorption, 4/5, "WDOFUT", "NEUTRAL"⟩]⟩
    (by norm_num) (by norm_num) (by norm_num) (by norm_num)

/-! ## C9 and C10: absorption detection -/

/-- A trade whose timestamp is not a `datetime` object never passes the
time-window filter. -/
theorem in_window_false_of_not_datetime (cfg : AbsorptionConfig) (now : Int) (t : ATrade)
    (h : t.timestamp.isDatetime = false) : in_window cfg now t = false := by
  cases hts : t.timestamp with
  | dt z =>
    rw [hts] at h
    exact absurd h (by simp [TsField.isDatetime])
  | str s => simp [in_window, hts]
  | missing => simp [in_window, hts]

/-- C10: `AbsorptionDetector.detect` returns none whenever no trade in the
input carries a `datetime` timestamp — in particular for the string
time-of-day timestamps `ExcelDataProvider._read_trades` produces — because
the `isinstance(t.get('timestamp'), datetime)` filter then keeps nothing. -/
theorem c10_detect_none_without_datetime (cfg : AbsorptionConfig) (now : Int)
    (trades : List ATrade) (h : ∀ t ∈ trades, t.timestamp.isDatetime = false) :
    absorption_detect cfg now trades = none := by
  by_cases hlen : trades.length < 10
  · simp [absorption_detect, hlen]
  · have hf : trades.filter (in_window cfg now) = [] := by
      rw [List.filter_eq_nil_iff]
      intro t ht
      rw [in_window_false_of_not_datetime cfg now t (h t ht)]
      simp
    simp [absorption_detect, hlen, hf]

/-- C10 (witness): the theorem at a concrete batch of 12 high-volume trades
carrying provider-style string timestamps. -/
theorem c10_witness :
    absorption_detect ⟨500, 1/5000, 60⟩ 0
      (List.replicate 12 ⟨.str "09:00:00.001", 5000, 1000⟩) = none :=
  c10_detect_none_without_datetime ⟨500, 1/5000, 60⟩ 0
    (List.replicate 12 ⟨.str "09:00:00.001", 5000, 1000⟩)
    (fun t ht => by rw [List.eq_of_mem_replicate ht]; rfl)

/-- C9: on a batch of at least 10 in-window trades with positive prices,
`AbsorptionDetector.detect` returns the ABSORPTION behavior with
`confidence = min 1 (total_volume / (2 × volume_threshold))` whenever the
total volume reaches the threshold and the price impact
`(max − min) / mean` is below `price_impact_max`; and it returns none
whenever the total volume is below the threshold. -/
theorem c9_absorption_detection (cfg : AbsorptionConfig) (now : Int) (trades : List ATrade)
    (hlen : 10 ≤ trades.length)
    (hwin : ∀ t ∈ trades, in_window cfg now t = true)
    (hpos : ∀ t ∈ trades, 0 < t.price) :
    (cfg.volume_threshold ≤ (trades.map (·.volume)).sum →
      (list_max (trades.map (·.price)) - list_min (trades.map (·.price))) /
          ((trades.map (·.price)).sum / (((trades.map (·.price)).length : Nat) : ℚ)) <
        cfg.price_impact_max →
      absorption_detect cfg now trades =
        some { confidence := min 1 ((((trades.map (·.volume)).sum : Nat) : ℚ) /
                 ((cfg.volume_threshold : ℚ) * 2)),
               volume := (trades.map (·.volume)).sum,
               price_impact :=
                 (list_max (trades.map (·.price)) - list_min (trades.map (·.price))) /
                   ((trades.map (·.price)).sum / (((trades.map (·.price)).length : Nat) : ℚ)),
               trade_count := trades.length }) ∧
    ((trades.map (·.volume)).sum < cfg.volume_threshold →
      absorption_detect cfg now trades = none) := by
  have hne : trades ≠ [] := by
    intro hnil
    rw [hnil] at hlen
    simp at hlen
  have hfilter : trades.filter (in_window cfg now) = trades :=
    List.filter_eq_self.mpr hwin
  have hprices : trades.filter (fun t => decide (t.price ≠ 0)) = trades := by
    rw [List.filter_eq_self]
    intro t ht
    simp [(hpos t ht).ne']
  have havg : 0 < (trades.map (·.price)).sum / (((trades.map (·.price)).length : Nat) : ℚ) := by
    apply div_pos
    · apply List.sum_pos
      · intro p hp
        obtain ⟨t, ht, rfl⟩ := List.mem_map.mp hp
        exact hpos t ht
      · simpa using hne
    · simpa using List.length_pos.mpr hne
  constructor
  · intro hvol himp
    simp only [absorption_detect, hfilter, hprices]
    split_ifs with h1 h2 h3 h4
    · omega
    · rw [List.isEmpty_iff] at h2
      exact absurd h2 hne
    · omega
    · rw [List.isEmpty_iff, List.map_eq_nil_iff] at h4
      exact absurd h4 hne
    · rfl
  · intro hvol
    simp only [absorption_detect, hfilter, hprices]
    split_ifs <;> rfl

/-- C9 (witness): the theorem at the spec's own test point — 20 in-window
trades of volume 100 each (total 2000, threshold 1000), all at the same price
(impact 0 < 0.0001) ⇒ a behavior with confidence min 1 (2000/2000) = 1. -/
theorem c9_witness :
    (absorption_detect ⟨1000, 1/10000, 60⟩ 2000000000
        (List.replicate 20 ⟨.dt 1999000000, 5000, 100⟩)).map (·.confidence) = some 1 := by
  have h := (c9_absorption_detection ⟨1000, 1/10000, 60⟩ 2000000000
      (List.replicate 20 ⟨.dt 1999000000, 5000, 100⟩)
      (by simp)
      (fun t ht => by rw [List.eq_of_mem_replicate ht]; decide)
      (fun t ht => by rw [List.eq_of_mem_replicate ht]; norm_num)).1
      (by simp [List.map_replicate, List.sum_replicate])
      (by simp [List.map_replicate, list_max, list_min])
  rw [h]
  simp only [Option.map_some]
  simp [List.map_replicate, List.sum_replicate]
  norm_num

/-! ## C2: idempotent dedup -/

/-- `process_trade` written as an explicit case split. -/
theorem process_trade_spec (st : DedupState) (t : HTrade) :
    process_trade st t =
      if generate_trade_hash t ∈ st.seen
      then ⟨st.seen, st.log ++ [(t, false)]⟩
      else ⟨st.seen ++ [generate_trade_hash t], st.log ++ [(t, true)]⟩ := by
  simp only [process_trade]

theorem uniqueCount_append (h : String) (l1 l2 : List (HTrade × Bool)) :
    uniqueCount h (l1 ++ l2) = uniqueCount h l1 + uniqueCount h l2 := by
  simp [uniqueCount, List.filter_append]

theorem submitCount_append (h : String) (l1 l2 : List (HTrade × Bool)) :
    submitCount h (l1 ++ l2) = submitCount h l1 + submitCount h l2 := by
  simp [submitCount, List.filter_append]

theorem uniqueCount_singleton (h : String) (t : HTrade) (b : Bool) :
    uniqueCount h [(t, b)] =
      if generate_trade_hash t = h ∧ b = true then 1 else 0 := by
  by_cases hc : generate_trade_hash t = h
  · have hc2 : (generate_trade_hash t == h) = true := beq_iff_eq.mpr hc
    cases b <;> simp [uniqueCount, List.filter, hc2, hc]
  · have hc2 : (generate_trade_hash t == h) = false := by simp [hc]
    cases b <;> simp [uniqueCount, List.filter, hc2, hc]

theorem submitCount_singleton (h : String) (t : HTrade) (b : Bool) :
    submitCount h [(t, b)] = if generate_trade_hash t = h then 1 else 0 := by
  by_cases hc : generate_trade_hash t = h
  · have hc2 : (generate_trade_hash t == h) = true := beq_iff_eq.mpr hc
    simp [submitCount, List.filter, hc2, hc]
  · have hc2 : (generate_trade_hash t == h) = false := by simp [hc]
    simp [submitCount, List.filter, hc2, hc]

/-- Every submission is classified as exactly one of Unique and Duplicate. -/
theorem counts_partition (h : String) (log : List (HTrade × Bool)) :
    uniqueCount h log + dupCount h log = submitCount h log := by
  induction log with
  | nil => rfl
  | cons e es ih =>
    obtain ⟨t, b⟩ := e
    by_cases hc : generate_trade_hash t = h
    · have hc2 : (generate_trade_hash t == h) = true := beq_iff_eq.mpr hc
      cases b <;> simp [uniqueCount, dupCount, submitCount, List.filter, hc2] at ih ⊢ <;> omega
    · have hc2 : (generate_trade_hash t == h) = false := by simp [hc]
      cases b <;> simp [uniqueCount, dupCount, submitCount, List.filter, hc2] at ih ⊢ <;> omega

/-- The unique-classified submissions of an all-unique log segment are counted
by the hash multiset of its trades. -/
theorem uniqueCount_map_true (h : String) (l : List HTrade) :
    uniqueCount h (l.map fun t => (t, true)) = (l.map generate_trade_hash).count h := by
  induction l with
  | nil => rfl
  | cons t ts ih =>
    by_cases hc : generate_trade_hash t = h
    · have hc2 : (generate_trade_hash t == h) = true := beq_iff_eq.mpr hc
      simp [uniqueCount, List.filter, List.count_cons, hc2] at ih ⊢
      omega
    · have hc2 : (generate_trade_hash t == h) = false := by simp [hc]
      simp [uniqueCount, List.filter, List.count_cons, hc2] at ih ⊢
      omega

theorem submitCount_map_true (h : String) (l : List HTrade) :
    submitCount h (l.map fun t => (t, true)) = (l.map generate_trade_hash).count h := by
  induction l with
  | nil => rfl
  | cons t ts ih =>
    by_cases hc : generate_trade_hash t = h
    · have hc2 : (generate_trade_hash t == h) = true := beq_iff_eq.mpr hc
      simp [submitCount, List.filter, List.count_cons, hc2] at ih ⊢
      omega
    · have hc2 : (generate_trade_hash t == h) = false := by simp [hc]
      simp [submitCount, List.filter, List.count_cons, hc2] at ih ⊢
      omega

/-- One submission grows the hash set by at most one entry. -/
theorem foldl_seen_length (l : List HTrade) : ∀ st : DedupState,
    (l.foldl process_trade st).seen.length ≤ st.seen.length + l.length := by
  induction l with
  | nil =>
    intro st
    simp
  | cons t ts ih =>
    intro st
    rw [List.foldl_cons, process_trade_spec]
    split_ifs with hc
    · exact le_trans (ih _) (by simp only [List.length_cons]; omega)
    · refine le_trans (ih _) ?_
      simp only [List.length_append, List.length_cons, List.length_nil]
      omega

/-- The post-batch trim is the identity while the set is within its bound. -/
theorem trim_hashes_of_le (seen : List String) (hle : seen.length ≤ max_saved_hashes) :
    trim_hashes seen = seen := by
  unfold trim_hashes
  rw [if_neg (by omega)]

/-- While at most `max_saved_hashes` submissions fit in the run, no eviction
ever fires and the batched run is one long fold of single submissions. -/
theorem process_runs_eq_plain : ∀ (batches : List (List HTrade)) (st : DedupState),
    st.seen.length + batches.flatten.length ≤ max_saved_hashes →
    batches.foldl process_trades st = batches.flatten.foldl process_trade st := by
  intro batches
  induction batches with
  | nil =>
    intro st _
    rfl
  | cons b bs ih =>
    intro st hb
    simp only [List.flatten_cons, List.length_append] at hb
    have h1 : (b.foldl process_trade st).seen.length ≤ st.seen.length + b.length :=
      foldl_seen_length b st
    have hpt : process_trades st b = b.foldl process_trade st := by
      show (⟨trim_hashes (b.foldl process_trade st).seen, (b.foldl process_trade st).log⟩ :
        DedupState) = b.foldl process_trade st
      rw [trim_hashes_of_le _ (by omega)]
    rw [List.foldl_cons, List.flatten_cons, List.foldl_append, hpt]
    exact ih _ (by omega)

/-- Submission counts over an eviction-free fold: a hash is in the final set
iff it was in the initial set or was submitted; a fresh hash is classified
Unique exactly once iff it is submitted at all; every submission is logged. -/
theorem foldl_counts (h : String) : ∀ (l : List HTrade) (st : DedupState),
    ((h ∈ (l.foldl process_trade st).seen) ↔
      (h ∈ st.seen ∨ h ∈ l.map generate_trade_hash)) ∧
    uniqueCount h (l.foldl process_trade st).log =
      uniqueCount h st.log +
        (if h ∈ st.seen then 0 else if h ∈ l.map generate_trade_hash then 1 else 0) ∧
    submitCount h (l.foldl process_trade st).log =
      submitCount h st.log + (l.map generate_trade_hash).count h := by
  intro l
  induction l with
  | nil =>
    intro st
    refine ⟨by simp, by simp, by simp⟩
  | cons t ts ih =>
    intro st
    rw [List.foldl_cons, process_trade_spec]
    by_cases hc : generate_trade_hash t ∈ st.seen
    · rw [if_pos hc]
      obtain ⟨ihm, ihu, ihs⟩ := ih ⟨st.seen, st.log ++ [(t, false)]⟩
      refine ⟨?_, ?_, ?_⟩
      · rw [ihm]
        simp only [List.map_cons, List.mem_cons]
        constructor
        · rintro (hs | hts)
          · exact Or.inl hs
          · exact Or.inr (Or.inr hts)
        · rintro (hs | rfl | hts)
          · exact Or.inl hs
          · exact Or.inl hc
          · exact Or.inr hts
      · rw [ihu, uniqueCount_append, uniqueCount_singleton]
        simp only [Bool.false_eq_true, and_false, if_false, add_zero]
        by_cases hh : h ∈ st.seen
        · simp [hh]
        · have hth : generate_trade_hash t ≠ h := fun he => hh (he ▸ hc)
          have hmem : h ∈ List.map generate_trade_hash (t :: ts) ↔
              h ∈ List.map generate_trade_hash ts := by
            simp only [List.map_cons, List.mem_cons]
            constructor
            · rintro (rfl | hm)
              · exact absurd rfl hth
              · exact hm
            · exact Or.inr
          rw [if_neg hh, if_neg hh, if_congr hmem rfl rfl]
      · rw [ihs, submitCount_append, submitCount_singleton]
        simp only [List.map_cons, List.count_cons]
        by_cases hth : generate_trade_hash t = h
        · rw [if_pos hth, if_pos (beq_iff_eq.mpr hth)]
          omega
        · have hc2 : (generate_trade_hash t == h) = false := by simp [hth]
          rw [if_neg hth, if_neg (by simp [hc2])]
          omega
    · rw [if_neg hc]
      obtain ⟨ihm, ihu, ihs⟩ := ih ⟨st.seen ++ [generate_trade_hash t], st.log ++ [(t, true)]⟩
      refine ⟨?_, ?_, ?_⟩
      · rw [ihm]
        simp only [List.map_cons, List.mem_cons, List.mem_append, List.mem_singleton]
        tauto
      · rw [ihu, uniqueCount_append, uniqueCount_singleton]
        by_cases hh : h ∈ st.seen
        · have hh2 : h ∈ st.seen ++ [generate_trade_hash t] := by simp [hh]
          have hth : ¬ (generate_trade_hash t = h ∧ true = true) := by
            rintro ⟨he, -⟩
            exact hc (he ▸ hh)
          rw [if_pos hh2, if_pos hh, if_neg hth]
        · by_cases hth : generate_trade_hash t = h
          · have hh2 : h ∈ st.seen ++ [generate_trade_hash t] := by simp [← hth]
            rw [if_pos hh2, if_pos ⟨hth, rfl⟩, if_neg hh,
              if_pos (by simp only [List.map_cons, List.mem_cons]; exact Or.inl hth.symm)]
          · have hh2 : h ∉ st.seen ++ [generate_trade_hash t] := by
              simp only [List.mem_append, List.mem_singleton]
              rintro (hs | rfl)
              · exact hh hs
              · exact hth rfl
            have hmem : h ∈ List.map generate_trade_hash (t :: ts) ↔
                h ∈ List.map generate_trade_hash ts := by
              simp only [List.map_cons, List.mem_cons]
              constructor
              · rintro (rfl | hm)
                · exact absurd rfl hth
                · exact hm
              · exact Or.inr
            have hth2 : ¬ (generate_trade_hash t = h ∧ true = true) := by
              rintro ⟨he, -⟩
              exact hth he
            rw [if_neg hh2, if_neg hh, if_congr hmem rfl rfl, if_neg hth2]
            omega
      · rw [ihs, submitCount_append, submitCount_singleton]
        simp only [List.map_cons, List.count_cons]
        by_cases hth : generate_trade_hash t = h
        · rw [if_pos hth, if_pos (beq_iff_eq.mpr hth)]
          omega
        · have hc2 : (generate_trade_hash t == h) = false := by simp [hth]
          rw [if_neg hth, if_neg (by simp [hc2])]
          omega

/-- A batch of fresh, pairwise-distinct trades is appended wholesale: every
submission is classified Unique and every hash is remembered in order. -/
theorem foldl_fresh : ∀ (l : List HTrade) (st : DedupState),
    (∀ x ∈ l.map generate_trade_hash, x ∉ st.seen) →
    (l.map generate_trade_hash).Nodup →
    l.foldl process_trade st =
      ⟨st.seen ++ l.map generate_trade_hash, st.log ++ l.map fun t => (t, true)⟩ := by
  intro l
  induction l with
  | nil =>
    intro st _ _
    simp
  | cons t ts ih =>
    intro st hfresh hnd
    rw [List.foldl_cons, process_trade_spec,
      if_neg (hfresh (generate_trade_hash t) (by simp))]
    rw [List.map_cons] at hnd
    have hnd' := List.nodup_cons.mp hnd
    rw [ih ⟨st.seen ++ [generate_trade_hash t], st.log ++ [(t, true)]⟩ ?_ hnd'.2]
    · simp
    · intro x hx
      simp only [List.mem_append, List.mem_singleton]
      rintro (hs | rfl)
      · exact hfresh x (by simp [hx]) hs
      · exact hnd'.1 hx

/-- The dedup hash of `cx_other i`, split into the shared prefix and the
varying volume rendering. -/
theorem cx_hash_other (i : Nat) :
    generate_trade_hash (cx_other i) = cx_prefix ++ String.mk (List.replicate (i + 1) '1') :=
  rfl

theorem cx_hash_other_length (i : Nat) :
    (generate_trade_hash (cx_other i)).length = 32 + i := by
  rw [cx_hash_other, String.length_append]
  have h1 : cx_prefix.length = 31 := rfl
  have h2 : (String.mk (List.replicate (i + 1) '1')).length = i + 1 := by
    show (List.replicate (i + 1) '1').length = i + 1
    simp
  omega

theorem cx_target_hash_ne (i : Nat) :
    generate_trade_hash (cx_other i) ≠ generate_trade_hash cx_target := by
  intro he
  have hl := congrArg String.length he
  rw [cx_hash_other_length] at hl
  have hr : (generate_trade_hash cx_target).length = 31 := rfl
  omega

theorem cx_hash_inj : Function.Injective fun i => generate_trade_hash (cx_other i) := by
  intro i j hij
  have hl := congrArg String.length hij
  simp only [cx_hash_other_length] at hl
  omega

theorem cx_target_not_mem :
    generate_trade_hash cx_target ∉
      (List.range max_saved_hashes).map fun i => generate_trade_hash (cx_other i) := by
  intro hm
  obtain ⟨i, -, hi⟩ := List.mem_map.mp hm
  exact cx_target_hash_ne i hi

theorem cx_batch_hashes :
    cx_batch.map generate_trade_hash =
      generate_trade_hash cx_target ::
        ((List.range max_saved_hashes).map fun i => generate_trade_hash (cx_other i)) := by
  simp [cx_batch, List.map_map, Function.comp]

theorem cx_batch_nodup : (cx_batch.map generate_trade_hash).Nodup := by
  rw [cx_batch_hashes]
  exact List.nodup_cons.mpr ⟨cx_target_not_mem, (List.nodup_range _).map cx_hash_inj⟩

/-- C2 (counterexample): the claim "submitting the same trade record N times
within one process lifetime yields exactly one Unique classification" is
false once the hash set is trimmed.  `cx_target` is submitted twice: once at
the head of a batch that is followed by 20000 fresh trades (driving the hash
set to 20001 entries, so the engine evicts the oldest half, dropping
`cx_target`'s hash), and once in the next batch — and it is classified
Unique *both* times (N = 2 submissions, 2 Uniques instead of 1). -/
theorem c2_counterexample :
    submitCount (generate_trade_hash cx_target) (process_runs [cx_batch, [cx_target]]).log = 2 ∧
    uniqueCount (generate_trade_hash cx_target) (process_runs [cx_batch, [cx_target]]).log = 2 := by
  have hb1 : cx_batch.foldl process_trade ⟨[], []⟩ =
      ⟨cx_batch.map generate_trade_hash, cx_batch.map fun t => (t, true)⟩ := by
    rw [foldl_fresh cx_batch ⟨[], []⟩ (by intro x hx; simp) cx_batch_nodup]
    simp
  have hlen1 : (cx_batch.map generate_trade_hash).length = max_saved_hashes + 1 := by
    simp [cx_batch]
  have hpt1 : process_trades ⟨[], []⟩ cx_batch =
      ⟨(cx_batch.map generate_trade_hash).drop (max_saved_hashes + 1 - max_saved_hashes / 2),
       cx_batch.map fun t => (t, true)⟩ := by
    show (⟨trim_hashes (cx_batch.foldl process_trade ⟨[], []⟩).seen,
          (cx_batch.foldl process_trade ⟨[], []⟩).log⟩ : DedupState) = _
    rw [hb1]
    show (⟨trim_hashes (cx_batch.map generate_trade_hash),
          cx_batch.map fun t => (t, true)⟩ : DedupState) = _
    unfold trim_hashes
    rw [hlen1, if_pos (by omega)]
  have hndrop : generate_trade_hash cx_target ∉
      (cx_batch.map generate_trade_hash).drop (max_saved_hashes + 1 - max_saved_hashes / 2) := by
    intro hm
    have heq : max_saved_hashes + 1 - max_saved_hashes / 2 =
        (max_saved_hashes - max_saved_hashes / 2) + 1 := by
      have := Nat.div_le_self max_saved_hashes 2
      omega
    rw [cx_batch_hashes, heq, List.drop_succ_cons] at hm
    exact cx_target_not_mem (List.drop_subset _ _ hm)
  have hrun : process_runs [cx_batch, [cx_target]] =
      process_trades (process_trades ⟨[], []⟩ cx_batch) [cx_target] := rfl
  have hone : ∀ (s1 : List String) (L : List (HTrade × Bool)),
      generate_trade_hash cx_target ∉ s1 →
      process_trades ⟨s1, L⟩ [cx_target] =
        ⟨trim_hashes (s1 ++ [generate_trade_hash cx_target]), L ++ [(cx_target, true)]⟩ := by
    intro s1 L hn
    show (⟨trim_hashes ([cx_target].foldl process_trade ⟨s1, L⟩).seen,
          ([cx_target].foldl process_trade ⟨s1, L⟩).log⟩ : DedupState) = _
    rw [List.foldl_cons, process_trade_spec, if_neg hn]
    rfl
  have hlog : (process_runs [cx_batch, [cx_target]]).log =
      (cx_batch.map fun t => (t, true)) ++ [(cx_target, true)] := by
    rw [hrun, hpt1, hone _ _ hndrop]
  rw [hlog]
  have hcount : (cx_batch.map generate_trade_hash).count (generate_trade_hash cx_target) = 1 := by
    rw [cx_batch_hashes, List.count_cons, List.count_eq_zero.mpr cx_target_not_mem]
    simp
  constructor
  · rw [submitCount_append, submitCount_map_true, submitCount_singleton, hcount]
    simp
  · rw [uniqueCount_append, uniqueCount_map_true, uniqueCount_singleton, hcount]
    simp

/-- C2 (amended): within one process lifetime in which at most
`max_saved_hashes` (20000) submissions reach the deduplicator — so the hash
set is never trimmed — a trade record submitted N ≥ 1 times (counted by its
dedup hash) is classified Unique exactly once and Duplicate N − 1 times,
regardless of submission order and of how the submissions are split into
batches. -/
theorem c2_dedup_unique_once (batches : List (List HTrade)) (t : HTrade)
    (hbound : batches.flatten.length ≤ max_saved_hashes)
    (hsub : 1 ≤ submitCount (generate_trade_hash t) (process_runs batches).log) :
    uniqueCount (generate_trade_hash t) (process_runs batches).log = 1 ∧
    dupCount (generate_trade_hash t) (process_runs batches).log =
      submitCount (generate_trade_hash t) (process_runs batches).log - 1 := by
  have hrun : process_runs batches = batches.flatten.foldl process_trade ⟨[], []⟩ :=
    process_runs_eq_plain batches ⟨[], []⟩ (by simpa using hbound)
  obtain ⟨-, hu, hs⟩ := foldl_counts (generate_trade_hash t) batches.flatten ⟨[], []⟩
  rw [hrun] at hsub ⊢
  have hs0 : submitCount (generate_trade_hash t) (⟨[], []⟩ : DedupState).log = 0 := rfl
  have hu0 : uniqueCount (generate_trade_hash t) (⟨[], []⟩ : DedupState).log = 0 := rfl
  rw [hs, hs0] at hsub
  have hmem : generate_trade_hash t ∈ batches.flatten.map generate_trade_hash := by
    by_contra hnm
    rw [List.count_eq_zero.mpr hnm] at hsub
    omega
  have hu1 : uniqueCount (generate_trade_hash t)
      (batches.flatten.foldl process_trade ⟨[], []⟩).log = 1 := by
    rw [hu, hu0, if_neg (by simp), if_pos hmem]
  refine ⟨hu1, ?_⟩
  have hpart := counts_partition (generate_trade_hash t)
    (batches.flatten.foldl process_trade ⟨[], []⟩).log
  omega

/-- C2 (witness): the amended statement at a single two-element batch
submitting the same record twice: one Unique, one Duplicate. -/
theorem c2_witness :
    uniqueCount (generate_trade_hash ⟨"10:00:00.000", "WDOFUT", "BUY", "5000.0", "5"⟩)
      (process_runs [[⟨"10:00:00.000", "WDOFUT", "BUY", "5000.0", "5"⟩,
                      ⟨"10:00:00.000", "WDOFUT", "BUY", "5000.0", "5"⟩]]).log = 1 ∧
    dupCount (generate_trade_hash ⟨"10:00:00.000", "WDOFUT", "BUY", "5000.0", "5"⟩)
      (process_runs [[⟨"10:00:00.000", "WDOFUT", "BUY", "5000.0", "5"⟩,
                      ⟨"10:00:00.000", "WDOFUT", "BUY", "5000.0", "5"⟩]]).log =
      submitCount (generate_trade_hash ⟨"10:00:00.000", "WDOFUT", "BUY", "5000.0", "5"⟩)
        (process_runs [[⟨"10:00:00.000", "WDOFUT", "BUY", "5000.0", "5"⟩,
                        ⟨"10:00:00.000", "WDOFUT", "BUY", "5000.0", "5"⟩]]).log - 1 :=
  c2_dedup_unique_once
    [[⟨"10:00:00.000", "WDOFUT", "BUY", "5000.0", "5"⟩,
      ⟨"10:00:00.000", "WDOFUT", "BUY", "5000.0", "5"⟩]]
    ⟨"10:00:00.000", "WDOFUT", "BUY", "5000.0", "5"⟩ (by decide) (by decide)

/-! ## C3: chronological ordering of the new-trade batch -/

/-- C3: the batch handed downstream by `get_data` is a permutation of the new
trades, non-decreasing in the parsed (`_parse_time_for_sorting`) timestamps,
and strictly increasing whenever the parsed timestamps are pairwise
distinct. -/
theorem c3_new_trades_sorted (today now : Nat) (trades : List STrade) :
    (sort_new_trades today now trades).Perm trades ∧
    ((sort_new_trades today now trades).map (sort_key today now)).Sorted (· ≤ ·) ∧
    ((trades.map (sort_key today now)).Nodup →
      ((sort_new_trades today now trades).map (sort_key today now)).Sorted (· < ·)) := by
  haveI : IsTotal STrade (fun a b => sort_key today now a ≤ sort_key today now b) :=
    ⟨fun a b => Nat.le_total _ _⟩
  haveI : IsTrans STrade (fun a b => sort_key today now a ≤ sort_key today now b) :=
    ⟨fun a b c hab hbc => le_trans hab hbc⟩
  have hperm : (sort_new_trades today now trades).Perm trades :=
    List.perm_insertionSort _ trades
  have hsorted : (sort_new_trades today now trades).Sorted
      (fun a b => sort_key today now a ≤ sort_key today now b) :=
    List.sorted_insertionSort _ trades
  have hmap : ((sort_new_trades today now trades).map (sort_key today now)).Sorted (· ≤ ·) := by
    rw [List.Sorted, List.pairwise_map]
    exact hsorted
  refine ⟨hperm, hmap, ?_⟩
  intro hnd
  exact hmap.lt_of_le ((hperm.map (sort_key today now)).nodup_iff.mpr hnd)

/-- C3 (witness): three out-of-order provider trades with distinct parsed
times (`09:23:58.100`, `09:23:57`, `09:23:58.004` on day code 20000) come out
strictly increasing in parsed time. -/
theorem c3_witness :
    ([(⟨"09:23:58.100", "WDOFUT", "BUY", 5000, 100, 3⟩ : STrade),
      ⟨"09:23:57", "WDOFUT", "SELL", 5001, 50, 4⟩,
      ⟨"09:23:58.004", "DOLFUT", "BUY", 5432, 10, 5⟩].map (sort_key 20000 0)).Nodup ∧
    ((sort_new_trades 20000 0
        [⟨"09:23:58.100", "WDOFUT", "BUY", 5000, 100, 3⟩,
         ⟨"09:23:57", "WDOFUT", "SELL", 5001, 50, 4⟩,
         ⟨"09:23:58.004", "DOLFUT", "BUY", 5432, 10, 5⟩]).map
        (sort_key 20000 0)).Sorted (· < ·) :=
  ⟨by decide,
    (c3_new_trades_sorted 20000 0
      [⟨"09:23:58.100", "WDOFUT", "BUY", 5000, 100, 3⟩,
       ⟨"09:23:57", "WDOFUT", "SELL", 5001, 50, 4⟩,
       ⟨"09:23:58.004", "DOLFUT", "BUY", 5432, 10, 5⟩]).2.2 (by decide)⟩

/-- C6 (witness): the theorem at the concrete touch sequence `[5, 7]` followed
by a touch of volume `3`. -/
theorem c6_witness :
    run_price_level [5, 7] = some ⟨2, 2, 12⟩ ∧
    run_price_level [5, 7, 3] = some ⟨3, 3, 15⟩ ∧
    (2 : Nat) ≤ 3 ∧ (3 : Nat) = min 3 10 := by
  refine ⟨by decide, by decide, ?_, by decide⟩
  exact (c6_strength_monotone_capped [5, 7] 3).2 ⟨2, 2, 12⟩ ⟨3, 3, 15⟩
    (by decide) (by decide)

end TapeReader

